import Mathlib

/-!
Verification of the UKRI/NIHR grant-scraper pipeline.

This file gives a shallow embedding, in Lean, of the pure computational
core of the repository (date selection, protocol sorting, work
partitioning, the enrichment workers, the merge step, the checkpoint
store and the long-running ingestion loop), and proves or refutes the
behavioural claims made by the specification.

External effects (HTTP fetches, Selenium page loads) are modelled as
oracle functions passed to the embedded workers: an oracle value
`Except.error ()` stands for "the fetch raised an exception", and
`Except.ok v` stands for a successful fetch returning `v`.
-/

/-- Decidable equality for `Except`, used to evaluate the embedded
fallible code on concrete inputs. -/
instance {ε α : Type} [DecidableEq ε] [DecidableEq α] :
    DecidableEq (Except ε α) := fun a b =>
  match a, b with
  | Except.ok x, Except.ok y =>
    if h : x = y then Decidable.isTrue (by rw [h])
    else Decidable.isFalse (fun hh => h (Except.ok.inj hh))
  | Except.error x, Except.error y =>
    if h : x = y then Decidable.isTrue (by rw [h])
    else Decidable.isFalse (fun hh => h (Except.error.inj hh))
  | Except.ok _, Except.error _ => Decidable.isFalse (fun hh => Except.noConfusion hh)
  | Except.error _, Except.ok _ => Decidable.isFalse (fun hh => Except.noConfusion hh)

/-- A Python `datetime` restricted to its calendar-date components,
which is all the repository ever compares or formats. -/
structure PyDate where
  year : Nat
  month : Nat
  day : Nat
deriving DecidableEq, Repr

/-- Character is an ASCII decimal digit. -/
def isDigitCh (c : Char) : Bool :=
  48 ≤ c.toNat && c.toNat ≤ 57

/-- Numeric value of a list of digit characters (most significant first). -/
def digitsToNat (cs : List Char) : Nat :=
  cs.foldl (fun acc c => acc * 10 + (c.toNat - 48)) 0

/-- All characters are digits and the list is non-empty, with a length bound:
models what a `strptime` numeric directive accepting `lo` to `hi` digits
matches. -/
def isDigitRun (lo hi : Nat) (cs : List Char) : Bool :=
  lo ≤ cs.length && cs.length ≤ hi && cs.all isDigitCh

/-- Python leap-year rule (as used by `datetime` date validation). -/
def isLeapYear (y : Nat) : Bool :=
  (y % 4 == 0 && y % 100 != 0) || y % 400 == 0

/-- Days in a month, as validated by `datetime` construction. -/
def daysInMonth (y m : Nat) : Nat :=
  if m = 2 then (if isLeapYear y then 29 else 28)
  else if m = 4 ∨ m = 6 ∨ m = 9 ∨ m = 11 then 30
  else 31

/-- A valid `datetime.date`: year in `[1, 9999]`, month in `[1, 12]`,
day within the month. -/
def isValidDate (y m d : Nat) : Bool :=
  1 ≤ y && y ≤ 9999 && 1 ≤ m && m ≤ 12 && 1 ≤ d && d ≤ daysInMonth y m

/-- Split a character list on a separator character (like `str.split(sep)`
with a one-character separator). -/
def splitOnCh (sep : Char) (cs : List Char) : List (List Char) :=
  match cs with
  | [] => [[]]
  | c :: rest =>
    let tail := splitOnCh sep rest
    if c = sep then [] :: tail
    else match tail with
      | [] => [[c]]
      | t :: ts => (c :: t) :: ts

/-- Models `datetime.strptime(s, "%Y-%m-%d")`: the `%Y`, `%m`, `%d`
directives match 1-4, 1-2 and 1-2 digits respectively, separated by
literal dashes, consuming the whole string, and the resulting date must
be a valid calendar date. -/
def pyStrptimeYmd (cs : List Char) : Option PyDate :=
  match splitOnCh '-' cs with
  | [ys, ms, ds] =>
    if isDigitRun 1 4 ys && isDigitRun 1 2 ms && isDigitRun 1 2 ds then
      let y := digitsToNat ys
      let m := digitsToNat ms
      let d := digitsToNat ds
      if isValidDate y m d then some ⟨y, m, d⟩ else none
    else none
  | _ => none

/-- Models `s.replace("Z", "+00:00")` at the character level. -/
def replaceZ : List Char → List Char
  | [] => []
  | c :: rest =>
    if c = 'Z' then '+' :: '0' :: '0' :: ':' :: '0' :: '0' :: replaceZ rest
    else c :: replaceZ rest

/-- Models `datetime.fromisoformat` restricted to its calendar-date part:
a zero-padded `YYYY-MM-DD` prefix, either alone or followed by a time
part introduced by `T` or a space.  The claims under verification depend
only on the date that results, so the time part is not further decoded. -/
def pyFromIso (cs : List Char) : Option PyDate :=
  let datePart := cs.take 10
  match splitOnCh '-' datePart with
  | [ys, ms, ds] =>
    if isDigitRun 4 4 ys && isDigitRun 2 2 ms && isDigitRun 2 2 ds then
      let y := digitsToNat ys
      let m := digitsToNat ms
      let d := digitsToNat ds
      if isValidDate y m d then
        match cs.drop 10 with
        | [] => some ⟨y, m, d⟩
        | t :: _ => if t = 'T' ∨ t = ' ' then some ⟨y, m, d⟩ else none
      else none
    else none
  | _ => none

/-- One candidate of `choose_best_date`: `if not c: continue`, then
`datetime.strptime(c[:10], "%Y-%m-%d")`, then on failure
`datetime.fromisoformat(c.replace("Z", "+00:00"))`; `none` when the
candidate is absent, falsy, or parses under neither attempt. -/
def tryCandidate (c : Option String) : Option PyDate :=
  match c with
  | none => none
  | some s =>
    if s.isEmpty then none
    else
      match pyStrptimeYmd (s.data.take 10) with
      | some d => some d
      | none => pyFromIso (replaceZ s.data)

/-- The field bag consulted by `choose_best_date` (the four dictionary
keys the function reads; a key absent from the record maps to `none`). -/
structure FieldBag where
  startDate : Option String
  awardDate : Option String
  endDate : Option String
  recordTimestamp : Option String
deriving DecidableEq, Repr

/-- Loop body of `choose_best_date`: return the first candidate that
parses, else keep scanning. -/
def firstParsed : List (Option String) → Option PyDate
  | [] => none
  | c :: rest =>
    match tryCandidate c with
    | some d => some d
    | none => firstParsed rest

/-- Models `choose_best_date` (identical in `ukri_protocol_finder.py` and
`multithread_monolith.py`): candidates are tried in the fixed order
`start_date`, `award_date`, `end_date`, `record_timestamp`. -/
def chooseBestDate (f : FieldBag) : Option PyDate :=
  firstParsed [f.startDate, f.awardDate, f.endDate, f.recordTimestamp]

/-! ### Month-year parsing and protocol sorting -/

/-- Lowercase an ASCII letter (tolower used for the case-insensitive
month-name match of `strptime`). -/
def lowerCh (c : Char) : Char :=
  if 65 ≤ c.toNat ∧ c.toNat ≤ 90 then Char.ofNat (c.toNat + 32) else c

/-- Month number from a name, matching `%b` (abbreviated) or `%B` (full),
case-insensitively as `strptime` does. -/
def monthFromName (cs : List Char) : Option Nat :=
  let l := cs.map lowerCh
  let abbrevs := ["jan", "feb", "mar", "apr", "may", "jun",
                  "jul", "aug", "sep", "oct", "nov", "dec"]
  let fulls := ["january", "february", "march", "april", "may", "june",
                "july", "august", "september", "october", "november",
                "december"]
  match (abbrevs.map String.data).indexOf? l with
  | some i => some (i + 1)
  | none =>
    match (fulls.map String.data).indexOf? l with
    | some i => some (i + 1)
    | none => none

/-- Python `str.strip()` restricted to ASCII whitespace. -/
def pyStrip (cs : List Char) : List Char :=
  let ws := fun c => c = ' ' ∨ c = '\t' ∨ c = '\n' ∨ c = '\r'
  ((cs.dropWhile ws).reverse.dropWhile ws).reverse

/-- Models `parse_month_year`: strip the text, then try
`strptime(text, "%b %Y")` and `strptime(text, "%B %Y")`; the result is
`datetime(year, month, 1)`, or `none` when neither format matches. -/
def parseMonthYear (s : String) : Option PyDate :=
  match splitOnCh ' ' (pyStrip s.data) with
  | [mon, yr] =>
    if isDigitRun 1 4 yr then
      let y := digitsToNat yr
      if 1 ≤ y ∧ y ≤ 9999 then
        match monthFromName mon with
        | some m => some ⟨y, m, 1⟩
        | none => none
      else none
    else none
  | _ => none

/-- One protocol-document entry as built by
`get_protocol_links_for_award` / `scrape_award_page`. -/
structure PItem where
  title : String
  url : String
  date : Option PyDate
deriving DecidableEq, Repr

/-- Encode a date monotonically; for valid dates (month ≤ 12, day ≤ 31)
this encoding orders exactly as `datetime` comparison does. -/
def dateCode (d : PyDate) : Nat :=
  d.year * 10000 + d.month * 100 + d.day

/-- Sort key of the protocol sort: `d["date"] or datetime(1900, 1, 1)` —
a missing date is replaced by the sentinel 1900-01-01. -/
def dateKey (it : PItem) : Nat :=
  match it.date with
  | some d => dateCode d
  | none => dateCode ⟨1900, 1, 1⟩

/-- The ordering used to model `items.sort(key=..., reverse=True)`:
newest (largest key) first. -/
def protoGE (a b : PItem) : Prop :=
  dateKey b ≤ dateKey a

instance : DecidableRel protoGE := fun a b => Nat.decLe (dateKey b) (dateKey a)

instance : IsTotal PItem protoGE :=
  ⟨fun a b => Nat.le_total (dateKey b) (dateKey a)⟩

instance : IsTrans PItem protoGE :=
  ⟨fun _ _ _ hab hbc => le_trans hbc hab⟩

/-- Models `items.sort(key=lambda d: (d["date"] or datetime(1900,1,1)),
reverse=True)`: Python's sort is stable, and a stable descending sort is
extensionally insertion sort under the `protoGE` relation. -/
def sortProtocols (items : List PItem) : List PItem :=
  List.insertionSort protoGE items

/-! ### Work partitioning -/

/-- Fuelled slicing loop for `chunksOf`: one fuel unit per produced
chunk.  Whenever `0 < cs`, fuel `l.length` is enough, since every step
drops at least one element. -/
def chunksOfF : Nat → Nat → List α → List (List α)
  | _, _, [] => []
  | 0, _, _ :: _ => []
  | _ + 1, 0, _ :: _ => []
  | fuel + 1, cs + 1, a :: rest =>
    ((a :: rest).take (cs + 1)) :: chunksOfF fuel (cs + 1) ((a :: rest).drop (cs + 1))

/-- Contiguous chunking: models the Python idiom
`[items[i:i + cs] for i in range(0, len(items), cs)]` for a step `cs`.
For `cs = 0` the Python `range` raises; that case never arises from the
chunk sizes the callers compute, and is mapped to `[]` here. -/
def chunksOf (cs : Nat) (l : List α) : List (List α) :=
  chunksOfF l.length cs l

/-- Ceiling division, as `(total_records + num_threads - 1) // num_threads`
in `scrape_protocol_info_multithreaded`. -/
def ceilDiv (n w : Nat) : Nat := (n + w - 1) / w

/-- Static chunking of `scrape_protocol_info_multithreaded`:
`chunk_size = (total_records + num_threads - 1) // num_threads`. -/
def mtChunks (records : List α) (numThreads : Nat) : List (List α) :=
  chunksOf (ceilDiv records.length numThreads) records

/-- Static chunking of `run_gtr_search_to_excel`:
`chunk_size = max(1, len(simplified) // threads)`. -/
def gtrChunks (records : List α) (threads : Nat) : List (List α) :=
  chunksOf (max 1 (records.length / threads)) records

/-! ### The `ukri_protocol_finder.py` enrichment pipeline -/

/-- One simplified API record, as built by `get_filtered_api_records`
(the `_sort_date` key is carried through the dictionaries unchanged and
never consulted by the behaviour under verification, so it is not
modelled). -/
structure URec where
  awardId : String
  title : String
  stream : String
  url : String
deriving DecidableEq, Repr

/-- One enrichment row as emitted by the scraping workers of
`ukri_protocol_finder.py` (the eight keys those workers write). -/
structure PRow where
  awardId : String
  title : String
  stream : String
  url : String
  protocolCount : Nat
  mrUrl : String
  mrTitle : String
  mrDate : String
deriving DecidableEq, Repr

/-- Zero-pad a numeral to two digits. -/
def pad2 (n : Nat) : String :=
  if n < 10 then "0" ++ toString n else toString n

/-- Zero-pad a numeral to four digits (the `%Y` format directive). -/
def pad4 (n : Nat) : String :=
  if n < 10 then "000" ++ toString n
  else if n < 100 then "00" ++ toString n
  else if n < 1000 then "0" ++ toString n
  else toString n

/-- Models `d.strftime("%Y-%m")`. -/
def fmtYm (d : PyDate) : String :=
  pad4 d.year ++ "-" ++ pad2 d.month

/-- Models `newest["date"].strftime("%Y-%m") if newest["date"] else ""`. -/
def fmtOptDate (d : Option PyDate) : String :=
  match d with
  | some dd => fmtYm dd
  | none => ""

/-- The row the workers append when `protos` is non-empty:
`newest = protos[0]` and `Protocol Count = len(protos)`. -/
def mkPRow (rec : URec) (p : PItem) (ps : List PItem) : PRow :=
  { awardId := rec.awardId
    title := rec.title
    stream := rec.stream
    url := rec.url
    protocolCount := ps.length + 1
    mrUrl := p.url
    mrTitle := p.title
    mrDate := fmtOptDate p.date }

/-- Oracle for `get_protocol_links_for_award(driver, url)`:
`Except.error ()` models the call raising, `Except.ok protos` a
successful scrape returning the (already sorted) protocol list. -/
abbrev FetchU := URec → Except Unit (List PItem)

/-- Loop body of the `worker` closure in
`scrape_protocol_info_multithreaded`, for one worker whose view of the
shared `protocol_rows` list has constant length `sharedLen` (the shared
list is only extended after a worker finishes its whole chunk, so during
a single worker run — and in any single-worker execution — its length
never changes).  Per item: the cap check against the shared list, the
`continue` on an empty Award ID or Project URL, the `try`/`except`
around the fetch, and the append only when protocols were found. -/
def mtWorkerGo (fetch : FetchU) (sharedLen maxRows : Nat) :
    List URec → List PRow
  | [] => []
  | row :: rest =>
    if maxRows ≤ sharedLen then []
    else
      let tail := mtWorkerGo fetch sharedLen maxRows rest
      if row.awardId = "" ∨ row.url = "" then tail
      else
        match fetch row with
        | Except.error _ => tail
        | Except.ok [] => tail
        | Except.ok (p :: ps) => mkPRow row p ps :: tail

/-- What one item contributes when the cap has not yet closed the
worker: nothing on skip, fetch failure, or an empty protocol list, and
one row otherwise. -/
def mtEmit (fetch : FetchU) (row : URec) : Option PRow :=
  if row.awardId = "" ∨ row.url = "" then none
  else
    match fetch row with
    | Except.ok (p :: ps) => some (mkPRow row p ps)
    | _ => none

/-- The whole of `scrape_protocol_info_multithreaded` under the
sequential schedule in which the workers run to completion one at a
time in chunk order (each worker's view of the shared list is then the
results of the workers that finished before it; for `num_threads = 1`
this is the only schedule). -/
def mtRunSeq (fetch : FetchU) (records : List URec)
    (maxRows numThreads : Nat) : List PRow :=
  if records.length = 0 then []
  else
    (mtChunks records numThreads).foldl
      (fun shared chunk =>
        shared ++ mtWorkerGo fetch shared.length maxRows chunk) []

/-- Loop body of the `worker` closure in
`scrape_protocol_info_driver_pool`, for one worker run in which the
shared `results` list has constant length `resultsLen` (the shared list
is only extended after the worker's `while` loop exits): the `while`
condition re-checks the cap before each dequeue, and the item is
appended only on a successful fetch with a non-empty protocol list. -/
def dpWorkerGo (fetch : FetchU) (resultsLen maxRows : Nat) :
    List URec → List PRow
  | [] => []
  | row :: rest =>
    if resultsLen < maxRows then
      match fetch row with
      | Except.ok (p :: ps) =>
        mkPRow row p ps :: dpWorkerGo fetch resultsLen maxRows rest
      | _ => dpWorkerGo fetch resultsLen maxRows rest
    else []

/-- What one dequeued item contributes in the driver-pool worker while
the cap has not closed the loop. -/
def dpEmit (fetch : FetchU) (row : URec) : Option PRow :=
  match fetch row with
  | Except.ok (p :: ps) => some (mkPRow row p ps)
  | _ => none

/-- Models the dictionary comprehension
`{r["Award ID"]: r for r in protocol_rows}` followed by
`protocol_index.get(aid)`: on duplicate keys the later entry wins, so
lookup finds the last matching row. -/
def pyDictGet (rows : List PRow) (aid : String) : Option PRow :=
  rows.reverse.find? (fun p => p.awardId == aid)

/-- The merged record built by `run_search_to_excel`
(`{**rec, ...eight enrichment keys...}`).  The worker rows of
`ukri_protocol_finder.py` never carry investigator keys, so
`p.get("Chief Investigators", "")` and friends always yield their
defaults, hit or miss. -/
structure ERecU where
  base : URec
  protocolCount : Nat
  mrUrl : String
  mrTitle : String
  mrDate : String
  chiefs : String
  numPis : Nat
  cois : String
  numCois : Nat
deriving DecidableEq, Repr

/-- Merge of one record: `p = protocol_index.get(aid, {})`, then each
enrichment key via `p.get(key, default)`. -/
def enrichOne (rows : List PRow) (rec : URec) : ERecU :=
  match pyDictGet rows rec.awardId with
  | some p => ⟨rec, p.protocolCount, p.mrUrl, p.mrTitle, p.mrDate, "", 0, "", 0⟩
  | none => ⟨rec, 0, "", "", "", "", 0, "", 0⟩

/-- The merge loop of `run_search_to_excel` in
`ukri_protocol_finder.py`: one output record per input record, in input
order, enrichment looked up by Award ID. -/
def mergeUPF (records : List URec) (rows : List PRow) : List ERecU :=
  records.map (enrichOne rows)

/-- The documented default enrichment: protocol count zero, every string
field empty, every name count zero — the value `enrichOne` produces on a
lookup miss. -/
def defaultEnrich (rec : URec) : ERecU :=
  ⟨rec, 0, "", "", "", "", 0, "", 0⟩

/-! ### The `multithread_monolith.py` pipeline -/

/-- One candidate record as built by `run_search_to_excel` in
`multithread_monolith.py` (again without the unconsulted `_sort_date`). -/
structure CRec where
  awardId : String
  title : String
  stream : String
  startDate : String
  endDate : String
  url : String
deriving DecidableEq, Repr

/-- One enriched record as appended by `scrape_batch`
(`{**row, ...eight enrichment keys...}`). -/
structure ERecM where
  base : CRec
  protocolCount : Nat
  mrUrl : String
  mrTitle : String
  mrDate : String
  chiefs : String
  numPis : Nat
  cois : String
  numCois : Nat
deriving DecidableEq, Repr

/-- Oracle for `scrape_award_page(driver, url)`: protocols, PI names and
co-investigator names, or a raised exception. -/
abbrev FetchM := CRec → Except Unit (List PItem × List String × List String)

/-- Models `"; ".join(names)`. -/
def joinSemi (names : List String) : String :=
  String.intercalate "; " names

/-- The record `scrape_batch` appends for one row, from the (possibly
degraded) scrape results. -/
def mkMRow (row : CRec) (protocols : List PItem)
    (pis cois : List String) : ERecM :=
  { base := row
    protocolCount := protocols.length
    mrUrl := match protocols with | p :: _ => p.url | [] => ""
    mrTitle := match protocols with | p :: _ => p.title | [] => ""
    mrDate := match protocols with | p :: _ => fmtOptDate p.date | [] => ""
    chiefs := joinSemi pis
    numPis := pis.length
    cois := joinSemi cois
    numCois := cois.length }

/-- One iteration of the `scrape_batch` loop: the `try`/`except` around
`scrape_award_page`, degrading a raised scrape to
`protocols, pis, cois = [], [], []`, followed by the unconditional
`results.append`. -/
def scrapeOne (fetch : FetchM) (row : CRec) : ERecM :=
  match fetch row with
  | Except.ok (protocols, pis, cois) => mkMRow row protocols pis cois
  | Except.error _ => mkMRow row [] [] []

/-- Models `scrape_batch`: every row of the batch yields exactly one
result, in batch order, and the loop always continues. -/
def scrapeBatch (fetch : FetchM) (batch : List CRec) : List ERecM :=
  batch.map (scrapeOne fetch)

/-- The enriched list built by the `as_completed` loop of
`multithread_monolith.run_search_to_excel`: each finished future's
result list is appended to `enriched` in completion order, so the final
list is the concatenation of per-chunk results in the order the chunks
completed (an arbitrary permutation of the submitted chunks). -/
def monoEnriched (fetch : FetchM) (completedChunks : List (List CRec)) :
    List ERecM :=
  (completedChunks.map (scrapeBatch fetch)).flatten

/-- The chunking of `multithread_monolith.run_search_to_excel`:
`n_threads = min(4, max(1, len(candidates)))` and ceiling-division
chunk size. -/
def monoChunks (records : List CRec) : List (List CRec) :=
  mtChunks records (min 4 (max 1 records.length))

/-! ### The `gtr_scraper.py` worker -/

/-- Python exceptions the embedded code can raise. -/
inductive PyErr where
  | valueError
  | unboundLocal
deriving DecidableEq, Repr

/-- One simplified GTR record as built by `run_gtr_search_to_excel`
(restricted to the keys `scrape_gtr_batch` consults or overrides). -/
structure GRec where
  projectId : String
  title : String
  url : String
  fundedValue : String
deriving DecidableEq, Repr

/-- One result row of `scrape_gtr_batch` (`{**row, ...}` restricted to
the same keys, with `Funded Value` overridden by the local variable). -/
structure GRow where
  base : GRec
  chiefs : String
  numPis : Nat
  cois : String
  numCois : Nat
  fundedValue : String
deriving DecidableEq, Repr

/-- Oracle for `scrape_project_page(driver, url, funded_value=...)`:
PI names, co-investigator names and the funded-value string, or a
raised exception. -/
abbrev FetchG := GRec → Except Unit (List String × List String × String)

/-- The row `scrape_gtr_batch` appends for one item. -/
def mkGRow (row : GRec) (pis cois : List String) (fv : String) : GRow :=
  { base := row
    chiefs := joinSemi pis
    numPis := pis.length
    cois := joinSemi cois
    numCois := cois.length
    fundedValue := fv }

/-- Loop of `scrape_gtr_batch`, with Python local-variable semantics for
`funded_value` made explicit: the state `fv` is `some v` once an
iteration has assigned `funded_value = v`, and `none` before any
assignment.  The `except` clause rebinds only `pis, cois = [], []`, so
on a failed scrape the subsequent `results.append` reads `funded_value`:
if it was never assigned, Python raises `UnboundLocalError`, the
exception escapes the worker, and the whole batch result is lost
(modelled as `Except.error PyErr.unboundLocal`); if it was assigned by
an earlier iteration, the stale value is used. -/
def scrapeGtrGo (fetch : FetchG) :
    Option String → List GRec → Except PyErr (List GRow)
  | _, [] => Except.ok []
  | fv, row :: rest =>
    match fetch row with
    | Except.ok (pis, cois, v) =>
      match scrapeGtrGo fetch (some v) rest with
      | Except.ok rs => Except.ok (mkGRow row pis cois v :: rs)
      | Except.error e => Except.error e
    | Except.error _ =>
      match fv with
      | none => Except.error PyErr.unboundLocal
      | some v =>
        match scrapeGtrGo fetch (some v) rest with
        | Except.ok rs => Except.ok (mkGRow row [] [] v :: rs)
        | Except.error e => Except.error e

/-- Models `scrape_gtr_batch(batch, wid)`: the worker starts with
`funded_value` unbound. -/
def scrapeGtrBatch (fetch : FetchG) (batch : List GRec) :
    Except PyErr (List GRow) :=
  scrapeGtrGo fetch none batch

/-! ### The long-running ingestion (`ukri-for-rag-stage-1-capture.py`) -/

/-- One raw API record of the stage-1 capture, reduced to the identifier
the trace records (the per-item protocol check and JSONL write do not
touch the cursor). -/
structure RagRec where
  projectId : String
deriving DecidableEq, Repr

/-- Observable events of the main ingestion loop: one `attempt` per
record processed (success or logged failure — `check_for_protocol`
catches its own exceptions), and one `saveCur` per `save_cursor` call. -/
inductive REvent where
  | attempt (projectId : String)
  | saveCur (offset : Int)
deriving DecidableEq, Repr

/-- The main loop of stage-1 capture as an event trace.  `stream` is the
API oracle (`fetch_api_batch`): the records it returns at a given
offset.  `fuel` bounds the number of iterations of the `while True`
loop (the run stops earlier when a batch comes back empty).  The cursor
is an `Int` because `get_cursor` can return any Python int.  Each
iteration attempts every record of the batch, then advances the offset
by the batch length and saves it — once, after the whole batch. -/
def runMain : Nat → (Int → List RagRec) → Int → List REvent
  | 0, _, _ => []
  | fuel + 1, stream, offset =>
    let recs := stream offset
    if recs.isEmpty then []
    else
      (recs.map fun r => REvent.attempt r.projectId)
        ++ [REvent.saveCur (offset + recs.length)]
        ++ runMain fuel stream (offset + recs.length)

/-- The successive batches the same run fetches. -/
def collectBatches : Nat → (Int → List RagRec) → Int → List (List RagRec)
  | 0, _, _ => []
  | fuel + 1, stream, offset =>
    let recs := stream offset
    if recs.isEmpty then []
    else recs :: collectBatches fuel stream (offset + recs.length)

/-- The trace a batch list induces when every record of a batch is
attempted before its single save, and each save advances the offset by
exactly that batch's length. -/
def traceOf : Int → List (List RagRec) → List REvent
  | _, [] => []
  | offset, b :: bs =>
    (b.map fun r => REvent.attempt r.projectId)
      ++ [REvent.saveCur (offset + b.length)]
      ++ traceOf (offset + b.length) bs

/-- The offsets passed to `save_cursor`, in order. -/
def savedOffsets (events : List REvent) : List Int :=
  events.filterMap fun e =>
    match e with
    | REvent.saveCur n => some n
    | REvent.attempt _ => none

/-! ### Checkpoint load (`get_cursor`) -/

/-- Models Python `int(s)` on a string: optional sign followed by one or
more decimal digits (surrounding whitespace already stripped by the
caller); anything else raises `ValueError`. -/
def pyInt (cs : List Char) : Except PyErr Int :=
  match cs with
  | '-' :: ds =>
    if ds ≠ [] && ds.all isDigitCh then Except.ok (-(digitsToNat ds : Int))
    else Except.error PyErr.valueError
  | '+' :: ds =>
    if ds ≠ [] && ds.all isDigitCh then Except.ok (digitsToNat ds : Int)
    else Except.error PyErr.valueError
  | ds =>
    if ds ≠ [] && ds.all isDigitCh then Except.ok (digitsToNat ds : Int)
    else Except.error PyErr.valueError

/-- Models `get_cursor`: `file` is `none` when the cursor file does not
exist and `some content` otherwise.  A missing file returns 0; otherwise
`int(f.read().strip())` is attempted and `except ValueError: return 0`
recovers a failed parse — only `ValueError` is caught. -/
def getCursor (file : Option String) : Except PyErr Int :=
  match file with
  | none => Except.ok 0
  | some content =>
    match pyInt (pyStrip content.data) with
    | Except.ok n => Except.ok n
    | Except.error PyErr.valueError => Except.ok 0
    | Except.error e => Except.error e

/-! ### Helper lemmas on chunking -/

theorem chunksOfF_flatten {α : Type} : ∀ (fuel cs : Nat) (l : List α),
    0 < cs → l.length ≤ fuel → (chunksOfF fuel cs l).flatten = l := by
  intro fuel
  induction fuel with
  | zero =>
    intro cs l hcs hlen
    cases l with
    | nil => simp [chunksOfF]
    | cons a rest => simp at hlen
  | succ fuel ih =>
    intro cs l hcs hlen
    cases l with
    | nil => simp [chunksOfF]
    | cons a rest =>
      cases cs with
      | zero => omega
      | succ cs =>
        simp only [chunksOfF, List.flatten_cons]
        rw [ih (cs + 1) ((a :: rest).drop (cs + 1)) hcs]
        · exact List.take_append_drop (cs + 1) (a :: rest)
        · simp only [List.length_drop, List.length_cons] at *
          omega

theorem chunksOf_flatten {α : Type} (cs : Nat) (l : List α) (hcs : 0 < cs) :
    (chunksOf cs l).flatten = l :=
  chunksOfF_flatten l.length cs l hcs le_rfl

theorem chunksOfF_mem {α : Type} : ∀ (fuel cs : Nat) (l c : List α),
    c ∈ chunksOfF fuel cs l → c ≠ [] ∧ c.length ≤ cs := by
  intro fuel
  induction fuel with
  | zero =>
    intro cs l c hc
    cases l <;> simp [chunksOfF] at hc
  | succ fuel ih =>
    intro cs l c hc
    cases l with
    | nil => simp [chunksOfF] at hc
    | cons a rest =>
      cases cs with
      | zero => simp [chunksOfF] at hc
      | succ cs =>
        simp only [chunksOfF, List.mem_cons] at hc
        rcases hc with rfl | hc
        · constructor
          · simp
          · simpa using List.length_take_le (cs + 1) (a :: rest)
        · exact ih (cs + 1) _ c hc

theorem mtChunks_flatten {α : Type} (l : List α) (w : Nat) (hw : 1 ≤ w) :
    (mtChunks l w).flatten = l := by
  cases l with
  | nil => simp [mtChunks, chunksOf, chunksOfF]
  | cons a rest =>
    simp only [mtChunks]
    apply chunksOf_flatten
    simp only [ceilDiv, List.length_cons]
    apply Nat.div_pos _ (by omega)
    omega

theorem gtrChunks_flatten {α : Type} (l : List α) (w : Nat) :
    (gtrChunks l w).flatten = l := by
  simp only [gtrChunks]
  apply chunksOf_flatten
  exact lt_of_lt_of_le one_pos (le_max_left 1 _)

/-! ### Claim C5 — static partitioning -/

/-- C5 counterexample: with 5 items and 4 workers,
`scrape_protocol_info_multithreaded` builds 3 chunks (not 4), the last
of size 1 (not `ceil(5/4) = 2`), and `run_gtr_search_to_excel` builds 5
chunks (not 4) — so the partition is not "W contiguous chunks of size
ceil(N/W)". -/
theorem c5_chunk_count_counterexample :
    mtChunks [0, 1, 2, 3, 4] 4 = [[0, 1], [2, 3], [4]]
  ∧ (mtChunks [0, 1, 2, 3, 4] 4).length ≠ 4
  ∧ gtrChunks [0, 1, 2, 3, 4] 4 = [[0], [1], [2], [3], [4]]
  ∧ (gtrChunks [0, 1, 2, 3, 4] 4).length ≠ 4 := by
  decide

/-- C5 amended: for every item list and worker count `W ≥ 1`, static
chunking is exhaustive and non-overlapping — the concatenation of the
chunks is exactly the original list, each item exactly once — and every
chunk is non-empty with at most `chunk_size` items; but the number of
chunks is `ceil(N / chunk_size)`, which for the ceiling-sized variant
can be fewer than `W` and for the gtr floor-sized variant more than `W`. -/
theorem c5_partition_amended {α : Type} (l : List α) (w : Nat) (hw : 1 ≤ w) :
    (mtChunks l w).flatten = l
  ∧ (gtrChunks l w).flatten = l
  ∧ (∀ c ∈ mtChunks l w, c ≠ [] ∧ c.length ≤ ceilDiv l.length w)
  ∧ (∀ c ∈ gtrChunks l w, c ≠ [] ∧ c.length ≤ max 1 (l.length / w)) := by
  refine ⟨mtChunks_flatten l w hw, gtrChunks_flatten l w, ?_, ?_⟩
  · intro c hc
    exact chunksOfF_mem l.length _ l c hc
  · intro c hc
    exact chunksOfF_mem l.length _ l c hc

/-- Witness for the amended C5 at a concrete input. -/
theorem c5_partition_witness :
    (1 : Nat) ≤ 2 ∧ (mtChunks [10, 20, 30] 2).flatten = [10, 20, 30] :=
  ⟨by decide, (c5_partition_amended [10, 20, 30] 2 (by decide)).1⟩

/-! ### Claim C7 — best-date selection -/

/-- C7: `choose_best_date` tries `start_date`, `award_date`, `end_date`,
`record_timestamp` in that fixed order and returns the first candidate
that is present and parseable (ISO date on the first ten characters,
falling back to a timestamp parse), `none` when no candidate parses; in
particular `start_date = "2021-03-01"` wins over
`award_date = "2020-01-01"`. -/
theorem c7_best_date_order :
    chooseBestDate ⟨some "2021-03-01", some "2020-01-01", none, none⟩
      = some ⟨2021, 3, 1⟩
  ∧ (∀ (f : FieldBag) (d : PyDate),
      tryCandidate f.startDate = some d → chooseBestDate f = some d)
  ∧ (∀ f : FieldBag,
      chooseBestDate f =
        ((tryCandidate f.startDate).or ((tryCandidate f.awardDate).or
          ((tryCandidate f.endDate).or (tryCandidate f.recordTimestamp))))) := by
  refine ⟨by decide, ?_, ?_⟩
  · intro f d h
    simp [chooseBestDate, firstParsed, h]
  · intro f
    simp only [chooseBestDate, firstParsed]
    cases tryCandidate f.startDate <;>
      cases tryCandidate f.awardDate <;>
        cases tryCandidate f.endDate <;>
          cases tryCandidate f.recordTimestamp <;>
            simp [Option.or]

/-- Witness for C7 at a concrete field bag. -/
theorem c7_best_date_witness :
    tryCandidate (some "2021-03-01") = some ⟨2021, 3, 1⟩
  ∧ chooseBestDate ⟨some "2021-03-01", none, none, some "2019-07-02"⟩
      = some ⟨2021, 3, 1⟩ :=
  ⟨by decide,
   c7_best_date_order.2.1 ⟨some "2021-03-01", none, none, some "2019-07-02"⟩
     ⟨2021, 3, 1⟩ (by decide)⟩

/-! ### Claim C8 — protocol sorting -/

/-- A protocol entry with no parseable date. -/
def itemNoDate : PItem := ⟨"Protocol A", "https://x/a.pdf", none⟩

/-- A protocol entry whose visible date parses to May 1899. -/
def item1899 : PItem := ⟨"Protocol B", "https://x/b.pdf", parseMonthYear "May 1899"⟩

/-- A protocol entry dated May 2021. -/
def item2105 : PItem := ⟨"Protocol C", "https://x/c.pdf", parseMonthYear "May 2021"⟩

/-- A protocol entry dated January 2019. -/
def itemJan2019 : PItem := ⟨"Protocol D", "https://x/d.pdf", parseMonthYear "Jan 2019"⟩

/-- C8 counterexample: an entry lacking a parseable date is *not*
always placed last — the sort substitutes the sentinel 1900-01-01 for a
missing date, so an entry genuinely dated May 1899 sorts *after* the
undated entry. -/
theorem c8_undated_not_last_counterexample :
    item1899.date = some ⟨1899, 5, 1⟩
  ∧ itemNoDate.date = none
  ∧ sortProtocols [item1899, itemNoDate] = [itemNoDate, item1899] := by
  decide

/-- C8 amended: entries are ordered newest-first by the key that maps a
missing date to the sentinel 1900-01-01 (so undated entries are placed
last among entries dated 1900 or later, but sort *above* any entry
dated before 1900 and tie with entries dated exactly 1900-01-01); ties
keep the first-encountered entry first (stable sort).  The spec's
example, whose dates all post-date 1900, sorts exactly as documented:
`[None, 2021-05, 2019-01]` becomes `[2021-05, 2019-01, None]`. -/
theorem c8_sort_amended :
    sortProtocols [itemNoDate, item2105, itemJan2019]
      = [item2105, itemJan2019, itemNoDate]
  ∧ item2105.date = some ⟨2021, 5, 1⟩
  ∧ itemJan2019.date = some ⟨2019, 1, 1⟩
  ∧ (∀ l : List PItem, (sortProtocols l).Perm l)
  ∧ (∀ l : List PItem, (sortProtocols l).Sorted protoGE) :=
  ⟨by decide, by decide, by decide,
   fun l => List.perm_insertionSort protoGE l,
   fun l => List.sorted_insertionSort protoGE l⟩

/-! ### Claim C9 — checkpoint load -/

/-- C9 counterexample: a cursor file containing `-5` loads as the
negative offset `-5`, so the loaded value is not always a non-negative
integer. -/
theorem c9_negative_cursor_counterexample :
    getCursor (some "-5") = Except.ok (-5) ∧ ¬ (0 ≤ (-5 : Int)) := by
  decide

/-- `int(s)` can only raise `ValueError`. -/
theorem pyInt_not_unbound (cs : List Char) :
    pyInt cs ≠ Except.error PyErr.unboundLocal := by
  unfold pyInt
  split <;> split <;> simp

/-- C9 amended: `get_cursor` never raises — a missing file and a file
whose stripped content `int()` rejects both yield offset 0, and a file
holding any integer literal (including a negative one) yields that
integer; the result is always an integer but not necessarily
non-negative. -/
theorem c9_load_amended :
    (∀ file : Option String, ∃ n : Int, getCursor file = Except.ok n)
  ∧ getCursor none = Except.ok 0
  ∧ (∀ s : String, pyInt (pyStrip s.data) = Except.error PyErr.valueError →
      getCursor (some s) = Except.ok 0)
  ∧ (∀ (s : String) (n : Int), pyInt (pyStrip s.data) = Except.ok n →
      getCursor (some s) = Except.ok n) := by
  refine ⟨?_, rfl, ?_, ?_⟩
  · intro file
    match file with
    | none => exact ⟨0, rfl⟩
    | some content =>
      match h : pyInt (pyStrip content.data) with
      | Except.ok n => exact ⟨n, by simp [getCursor, h]⟩
      | Except.error PyErr.valueError => exact ⟨0, by simp [getCursor, h]⟩
      | Except.error PyErr.unboundLocal => exact absurd h (pyInt_not_unbound _)
  · intro s h
    simp [getCursor, h]
  · intro s n h
    simp [getCursor, h]

/-- Witness for the amended C9 at concrete file contents. -/
theorem c9_load_witness :
    (pyInt (pyStrip "abc".data) = Except.error PyErr.valueError
      ∧ getCursor (some "abc") = Except.ok 0)
  ∧ (pyInt (pyStrip " 42 ".data) = Except.ok 42
      ∧ getCursor (some " 42 ") = Except.ok 42) :=
  ⟨⟨by decide, c9_load_amended.2.2.1 "abc" (by decide)⟩,
   ⟨by decide, c9_load_amended.2.2.2 " 42 " 42 (by decide)⟩⟩

/-! ### Claim C4 — per-item failure handling in the workers -/

/-- An oracle on which every scrape raises. -/
def fetchGFail : FetchG := fun _ => Except.error ()

/-- A first GTR item. -/
def gtrItemA : GRec := ⟨"PID-1", "Title one", "https://gtr.x/1", "GBP 100"⟩

/-- A second GTR item. -/
def gtrItemB : GRec := ⟨"PID-2", "Title two", "https://gtr.x/2", "GBP 200"⟩

/-- An oracle on which the first GTR item succeeds and the second raises. -/
def fetchGSecond : FetchG := fun r =>
  if r.projectId = "PID-1" then Except.ok (["Dr A"], [], "GBP 111")
  else Except.error ()

/-- A monolith candidate record. -/
def monoItemA : CRec :=
  ⟨"AW-1", "Title one", "Stream", "2020-01-01", "2021-01-01", "https://x/1"⟩

/-- An oracle on which every monolith scrape raises. -/
def fetchMFail : FetchM := fun _ => Except.error ()

/-- C4: `multithread_monolith.scrape_batch` does degrade a failed item
to empty fields and continue (third conjunct), but
`gtr_scraper.scrape_gtr_batch` does not: its `except` clause rebinds
only `pis, cois`, so when the *first* item of a batch raises, the
`results.append` reads the never-assigned local `funded_value` and the
worker aborts with `UnboundLocalError`, losing the whole chunk (first
conjunct); when a *later* item raises, the worker survives but writes
the previous item's stale funded value into the failed row (second
conjunct). -/
theorem c4_gtr_worker_abort :
    scrapeGtrBatch fetchGFail [gtrItemA] = Except.error PyErr.unboundLocal
  ∧ scrapeGtrBatch fetchGSecond [gtrItemA, gtrItemB]
      = Except.ok [mkGRow gtrItemA ["Dr A"] [] "GBP 111",
                   mkGRow gtrItemB [] [] "GBP 111"]
  ∧ scrapeBatch fetchMFail [monoItemA] = [mkMRow monoItemA [] [] []] := by
  refine ⟨by decide, by decide, by decide⟩

/-! ### Claim C2 — merge length and ordering -/

/-- The base record of `enrichOne` is the input record itself
(`{**rec, ...}` copies all of `rec`). -/
theorem enrichOne_base (rows : List PRow) (rec : URec) :
    (enrichOne rows rec).base = rec := by
  unfold enrichOne
  split <;> rfl

/-- The base record of a scraped row is the input row itself, whether
or not the scrape raised. -/
theorem scrapeOne_base (fetch : FetchM) (row : CRec) :
    (scrapeOne fetch row).base = row := by
  unfold scrapeOne
  split <;> rfl

/-- Each batch contributes exactly one result per row, in row order. -/
theorem scrapeBatch_map_base (fetch : FetchM) (batch : List CRec) :
    (scrapeBatch fetch batch).map ERecM.base = batch := by
  unfold scrapeBatch
  rw [List.map_map]
  calc batch.map (ERecM.base ∘ scrapeOne fetch)
      = batch.map id :=
        List.map_congr_left (fun r _ => scrapeOne_base fetch r)
    _ = batch := List.map_id batch

/-- A first monolith candidate. -/
def crec1 : CRec :=
  ⟨"AW-101", "First title", "Stream", "2022-01-01", "2023-01-01", "https://x/101"⟩

/-- A second monolith candidate. -/
def crec2 : CRec :=
  ⟨"AW-102", "Second title", "Stream", "2022-02-01", "2023-02-01", "https://x/102"⟩

/-- C2 counterexample: in `multithread_monolith.run_search_to_excel`
the enriched list is built by extending `enriched` in the order
`as_completed` yields the futures, i.e. in chunk-*completion* order.
With the two candidates `[crec1, crec2]` the code forms the two
one-element chunks `[[crec1], [crec2]]`; in the execution where the
second worker finishes first the output order is `[crec2, crec1]`,
which is not the Record Source's emission order — so the output order
is *not* independent of completion order. -/
theorem c2_completion_order_counterexample :
    monoChunks [crec1, crec2] = [[crec1], [crec2]]
  ∧ List.Perm [[crec2], [crec1]] [[crec1], [crec2]]
  ∧ (monoEnriched fetchMFail [[crec2], [crec1]]).map ERecM.base = [crec2, crec1]
  ∧ [crec2, crec1] ≠ [crec1, crec2] := by
  refine ⟨?_, List.Perm.swap [crec1] [crec2] [], by decide, by decide⟩
  simp [monoChunks, mtChunks, ceilDiv, chunksOf, chunksOfF]

/-- C2 amended: the merge of `ukri_protocol_finder.run_search_to_excel`
does satisfy the claim — one output per input, in the Record Source's
emission order (identity permutation), for every completion order of
the workers (the worker output only enters through the key-indexed
`protocol_index`).  In `multithread_monolith.run_search_to_excel` the
output still contains exactly one record per input record, but only as
a *permutation*: the order is the chunk-completion order, so it matches
the emission order only when chunks happen to complete in submission
order. -/
theorem c2_merge_order_amended :
    (∀ (records : List URec) (rows : List PRow),
        (mergeUPF records rows).length = records.length
      ∧ (mergeUPF records rows).map ERecU.base = records)
  ∧ (∀ (fetch : FetchM) (chunks completed : List (List CRec)),
      List.Perm completed chunks →
        ((monoEnriched fetch completed).map ERecM.base).Perm chunks.flatten
      ∧ (monoEnriched fetch completed).length = chunks.flatten.length) := by
  constructor
  · intro records rows
    constructor
    · simp [mergeUPF]
    · unfold mergeUPF
      rw [List.map_map]
      calc records.map (ERecU.base ∘ enrichOne rows)
          = records.map id :=
            List.map_congr_left (fun r _ => enrichOne_base rows r)
        _ = records := List.map_id records
  · intro fetch chunks completed hperm
    have hbase : (monoEnriched fetch completed).map ERecM.base
        = completed.flatten := by
      unfold monoEnriched
      rw [List.map_flatten, List.map_map]
      congr 1
      calc completed.map (List.map ERecM.base ∘ scrapeBatch fetch)
          = completed.map id :=
            List.map_congr_left (fun b _ => scrapeBatch_map_base fetch b)
        _ = completed := List.map_id completed
    constructor
    · rw [hbase]
      exact hperm.flatten
    · have := congrArg List.length hbase
      simp only [List.length_map] at this
      rw [this, (hperm.flatten).length_eq]

/-- Witness for the amended C2 at concrete inputs. -/
theorem c2_merge_witness :
    List.Perm [[crec2], [crec1]] [[crec1], [crec2]]
  ∧ ((monoEnriched fetchMFail [[crec2], [crec1]]).map ERecM.base).Perm
      ([[crec1], [crec2]] : List (List CRec)).flatten :=
  ⟨List.Perm.swap [crec1] [crec2] [],
   (c2_merge_order_amended.2 fetchMFail [[crec1], [crec2]] [[crec2], [crec1]]
     (List.Perm.swap [crec1] [crec2] [])).1⟩

/-! ### Worker lemmas for the `ukri_protocol_finder` pipeline -/

/-- Every row a static worker emits originates in a row of its subset
that passed the skip check and whose fetch succeeded with a non-empty
protocol list; in particular the emitted Award ID is that source row's
Award ID. -/
theorem mtWorkerGo_mem (fetch : FetchU) (sharedLen maxRows : Nat) :
    ∀ (subset : List URec) (p : PRow),
      p ∈ mtWorkerGo fetch sharedLen maxRows subset →
      ∃ r ∈ subset, p.awardId = r.awardId
        ∧ ¬(r.awardId = "" ∨ r.url = "")
        ∧ ∃ x xs, fetch r = Except.ok (x :: xs) ∧ p = mkPRow r x xs := by
  intro subset
  induction subset with
  | nil =>
    intro p hp
    simp [mtWorkerGo] at hp
  | cons row rest ih =>
    intro p hp
    rw [mtWorkerGo] at hp
    by_cases hcap : maxRows ≤ sharedLen
    · rw [if_pos hcap] at hp
      simp at hp
    · rw [if_neg hcap] at hp
      by_cases hskip : row.awardId = "" ∨ row.url = ""
      · rw [if_pos hskip] at hp
        obtain ⟨r, hr, rest_prop⟩ := ih p hp
        exact ⟨r, List.mem_cons_of_mem row hr, rest_prop⟩
      · rw [if_neg hskip] at hp
        cases hf : fetch row with
        | error e =>
          rw [hf] at hp
          obtain ⟨r, hr, rest_prop⟩ := ih p hp
          exact ⟨r, List.mem_cons_of_mem row hr, rest_prop⟩
        | ok protos =>
          rw [hf] at hp
          cases protos with
          | nil =>
            obtain ⟨r, hr, rest_prop⟩ := ih p hp
            exact ⟨r, List.mem_cons_of_mem row hr, rest_prop⟩
          | cons x xs =>
            rcases List.mem_cons.mp hp with rfl | hp2
            · exact ⟨row, List.mem_cons_self row rest, rfl, hskip,
                x, xs, hf, rfl⟩
            · obtain ⟨r, hr, rest_prop⟩ := ih p hp2
              exact ⟨r, List.mem_cons_of_mem row hr, rest_prop⟩

/-- The lookup by Award ID misses exactly when no emitted row carries
that Award ID. -/
theorem pyDictGet_eq_none (rows : List PRow) (aid : String) :
    pyDictGet rows aid = none ↔ ∀ p ∈ rows, p.awardId ≠ aid := by
  unfold pyDictGet
  rw [List.find?_eq_none]
  constructor
  · intro h p hp
    have := h p (List.mem_reverse.mpr hp)
    simpa using this
  · intro h p hp
    have := h p (List.mem_reverse.mp hp)
    simpa using this

/-! ### Claim C3 — defaults for failed items -/

/-- C3: a work item whose fetch raises emits no enrichment entry for
its Award ID (third conjunct, under the proviso — guaranteed by the
data model's unique `Award ID` identity — that every same-keyed row of
the subset also fails), and a record whose Award ID has no enrichment
entry is still merged, as exactly the documented defaults: Protocol
Count 0, empty protocol URL/title/date, empty investigator strings and
zero name counts — no field is ever missing (first two conjuncts). -/
theorem c3_failed_item_defaults (records : List URec) (rows : List PRow)
    (rec : URec) (hmem : rec ∈ records)
    (hmiss : pyDictGet rows rec.awardId = none) :
    enrichOne rows rec = defaultEnrich rec
  ∧ defaultEnrich rec ∈ mergeUPF records rows
  ∧ (∀ (fetch : FetchU) (sharedLen maxRows : Nat) (subset : List URec),
      (∀ r ∈ subset, r.awardId = rec.awardId → fetch r = Except.error ()) →
      pyDictGet (mtWorkerGo fetch sharedLen maxRows subset) rec.awardId = none) := by
  have h1 : enrichOne rows rec = defaultEnrich rec := by
    unfold enrichOne defaultEnrich
    rw [hmiss]
  refine ⟨h1, ?_, ?_⟩
  · rw [← h1]
    exact List.mem_map.mpr ⟨rec, hmem, rfl⟩
  · intro fetch sharedLen maxRows subset hfail
    rw [pyDictGet_eq_none]
    intro p hp
    obtain ⟨r, hr, heq, _hskip, x, xs, hok, _⟩ :=
      mtWorkerGo_mem fetch sharedLen maxRows subset p hp
    intro hcontra
    have : fetch r = Except.error () := hfail r hr (heq ▸ hcontra)
    rw [hok] at this
    exact Except.noConfusion this

/-- A record for witnesses. -/
def urec1 : URec := ⟨"AW-201", "Witness title", "Stream", "https://x/201"⟩

/-- Witness for C3 at a concrete record with no enrichment entry. -/
theorem c3_defaults_witness :
    urec1 ∈ [urec1] ∧ pyDictGet [] urec1.awardId = none
  ∧ defaultEnrich urec1 ∈ mergeUPF [urec1] [] :=
  ⟨by decide, by decide,
   (c3_failed_item_defaults [urec1] [] urec1 (by decide) (by decide)).2.1⟩

/-! ### Claim C6 — the global result cap -/

/-- While a worker's view of the shared collection is below the cap,
the cap check never fires, so the worker processes its *entire* chunk. -/
theorem mtWorkerGo_cap_open (fetch : FetchU) (sharedLen maxRows : Nat)
    (hlt : sharedLen < maxRows) :
    ∀ subset : List URec,
      mtWorkerGo fetch sharedLen maxRows subset
        = subset.filterMap (mtEmit fetch) := by
  intro subset
  induction subset with
  | nil => rfl
  | cons row rest ih =>
    rw [mtWorkerGo, if_neg (Nat.not_le.mpr hlt), List.filterMap_cons]
    by_cases hskip : row.awardId = "" ∨ row.url = ""
    · have he : mtEmit fetch row = none := by
        unfold mtEmit
        rw [if_pos hskip]
      rw [if_pos hskip, he]
      exact ih
    · rw [if_neg hskip]
      cases hf : fetch row with
      | error e =>
        have he : mtEmit fetch row = none := by
          unfold mtEmit
          rw [if_neg hskip, hf]
        rw [he]
        exact ih
      | ok protos =>
        cases protos with
        | nil =>
          have he : mtEmit fetch row = none := by
            unfold mtEmit
            rw [if_neg hskip, hf]
          rw [he]
          exact ih
        | cons x xs =>
          have he : mtEmit fetch row = some (mkPRow row x xs) := by
            unfold mtEmit
            rw [if_neg hskip, hf]
          rw [he]
          exact congrArg (List.cons (mkPRow row x xs)) ih

/-- Once the worker's view of the shared collection is at or above the
cap, it takes no item at all. -/
theorem mtWorkerGo_cap_closed (fetch : FetchU) (sharedLen maxRows : Nat)
    (hge : maxRows ≤ sharedLen) (subset : List URec) :
    mtWorkerGo fetch sharedLen maxRows subset = [] := by
  cases subset with
  | nil => rfl
  | cons row rest => rw [mtWorkerGo, if_pos hge]

/-- Driver-pool analogue of `mtWorkerGo_cap_open`. -/
theorem dpWorkerGo_cap_open (fetch : FetchU) (resultsLen maxRows : Nat)
    (hlt : resultsLen < maxRows) :
    ∀ queue : List URec,
      dpWorkerGo fetch resultsLen maxRows queue
        = queue.filterMap (dpEmit fetch) := by
  intro queue
  induction queue with
  | nil => rfl
  | cons row rest ih =>
    rw [dpWorkerGo, if_pos hlt, List.filterMap_cons]
    cases hf : fetch row with
    | error e =>
      have he : dpEmit fetch row = none := by
        unfold dpEmit
        rw [hf]
      rw [he]
      exact ih
    | ok protos =>
      cases protos with
      | nil =>
        have he : dpEmit fetch row = none := by
          unfold dpEmit
          rw [hf]
        rw [he]
        exact ih
      | cons x xs =>
        have he : dpEmit fetch row = some (mkPRow row x xs) := by
          unfold dpEmit
          rw [hf]
        rw [he]
        exact congrArg (List.cons (mkPRow row x xs)) ih

/-- Driver-pool analogue of `mtWorkerGo_cap_closed`. -/
theorem dpWorkerGo_cap_closed (fetch : FetchU) (resultsLen maxRows : Nat)
    (hge : maxRows ≤ resultsLen) (queue : List URec) :
    dpWorkerGo fetch resultsLen maxRows queue = [] := by
  cases queue with
  | nil => rfl
  | cons row rest => rw [dpWorkerGo, if_neg (Nat.not_lt.mpr hge)]

/-- C6 amended: in both the static worker of
`scrape_protocol_info_multithreaded` and the dynamic worker of
`scrape_protocol_info_driver_pool`, the cap is compared against the
*shared* collection, which a worker extends only once, after its loop
has finished.  Consequently, during any worker run in which no other
worker flushes, the worker either takes no item at all (its view is
already at the cap) or processes its whole chunk/queue regardless of
how many results accumulate locally — the overshoot is bounded only by
the worker's whole allocation, not by items in flight. -/
theorem c6_cap_behaviour_amended (fetch : FetchU)
    (sharedLen maxRows : Nat) (subset : List URec) :
    (maxRows ≤ sharedLen →
        mtWorkerGo fetch sharedLen maxRows subset = []
      ∧ dpWorkerGo fetch sharedLen maxRows subset = [])
  ∧ (sharedLen < maxRows →
        mtWorkerGo fetch sharedLen maxRows subset
          = subset.filterMap (mtEmit fetch)
      ∧ dpWorkerGo fetch sharedLen maxRows subset
          = subset.filterMap (dpEmit fetch)) := by
  constructor
  · intro hge
    exact ⟨mtWorkerGo_cap_closed fetch sharedLen maxRows hge subset,
           dpWorkerGo_cap_closed fetch sharedLen maxRows hge subset⟩
  · intro hlt
    exact ⟨mtWorkerGo_cap_open fetch sharedLen maxRows hlt subset,
           dpWorkerGo_cap_open fetch sharedLen maxRows hlt subset⟩

/-- An oracle on which every record has exactly one protocol. -/
def fetchOne : FetchU := fun _ => Except.ok [⟨"Protocol", "https://x/p.pdf", none⟩]

/-- Three records with non-empty ids and urls. -/
def urecs3 : List URec :=
  [⟨"AW-301", "Record one", "Stream", "https://x/301"⟩,
   ⟨"AW-302", "Record two", "Stream", "https://x/302"⟩,
   ⟨"AW-303", "Record three", "Stream", "https://x/303"⟩]

/-- C6 counterexample: with a cap of `max_rows = 1`, one worker and
three records that each yield a protocol, the run produces three
result rows — after the first result exists, two further items are
still taken (the shared collection stays empty until the worker
flushes at the end), so the cap is exceeded by more than the one item
that can be in flight.  The same happens in the driver-pool worker. -/
theorem c6_cap_overshoot_counterexample :
    (mtRunSeq fetchOne urecs3 1 1).length = 3
  ∧ (dpWorkerGo fetchOne 0 1 urecs3).length = 3
  ∧ ¬ ((mtRunSeq fetchOne urecs3 1 1).length ≤ 1 + 1) := by
  refine ⟨?_, by decide, ?_⟩ <;>
    simp [mtRunSeq, mtChunks, ceilDiv, chunksOf, chunksOfF, urecs3,
      mtWorkerGo, fetchOne, mkPRow]

/-- Witness for the amended C6 at concrete inputs. -/
theorem c6_cap_witness :
    (0 : Nat) < 1
  ∧ mtWorkerGo fetchOne 0 1 urecs3 = urecs3.filterMap (mtEmit fetchOne)
  ∧ dpWorkerGo fetchOne 0 1 urecs3 = urecs3.filterMap (dpEmit fetchOne) :=
  ⟨by decide,
   ((c6_cap_behaviour_amended fetchOne 0 1 urecs3).2 (by decide)).1,
   ((c6_cap_behaviour_amended fetchOne 0 1 urecs3).2 (by decide)).2⟩

/-! ### Claim C10 — records with empty Award ID or Project URL -/

/-- The worker's output does not depend on what the fetch oracle would
return for rows that fail the skip check: skipped rows are never
fetched. -/
theorem mtWorkerGo_congr (fetch fetch2 : FetchU)
    (hagree : ∀ r : URec, ¬(r.awardId = "" ∨ r.url = "") → fetch2 r = fetch r)
    (sharedLen maxRows : Nat) :
    ∀ subset : List URec,
      mtWorkerGo fetch2 sharedLen maxRows subset
        = mtWorkerGo fetch sharedLen maxRows subset := by
  intro subset
  induction subset with
  | nil => rfl
  | cons row rest ih =>
    rw [mtWorkerGo, mtWorkerGo]
    by_cases hcap : maxRows ≤ sharedLen
    · rw [if_pos hcap, if_pos hcap]
    · rw [if_neg hcap, if_neg hcap]
      by_cases hskip : row.awardId = "" ∨ row.url = ""
      · rw [if_pos hskip, if_pos hskip]
        exact ih
      · rw [if_neg hskip, if_neg hskip, hagree row hskip]
        cases fetch row with
        | error e => exact ih
        | ok protos =>
          cases protos with
          | nil => exact ih
          | cons x xs => exact congrArg (List.cons (mkPRow row x xs)) ih

/-- Congruence for the whole sequentially scheduled run. -/
theorem mtRunSeq_congr (fetch fetch2 : FetchU)
    (hagree : ∀ r : URec, ¬(r.awardId = "" ∨ r.url = "") → fetch2 r = fetch r)
    (records : List URec) (maxRows numThreads : Nat) :
    mtRunSeq fetch2 records maxRows numThreads
      = mtRunSeq fetch records maxRows numThreads := by
  unfold mtRunSeq
  by_cases hz : records.length = 0
  · rw [if_pos hz, if_pos hz]
  · rw [if_neg hz, if_neg hz]
    have hfold : ∀ (chunks : List (List URec)) (init : List PRow),
        chunks.foldl (fun shared chunk =>
          shared ++ mtWorkerGo fetch2 shared.length maxRows chunk) init
      = chunks.foldl (fun shared chunk =>
          shared ++ mtWorkerGo fetch shared.length maxRows chunk) init := by
      intro chunks
      induction chunks with
      | nil => intro init; rfl
      | cons c cs ih =>
        intro init
        simp only [List.foldl_cons]
        rw [mtWorkerGo_congr fetch fetch2 hagree init.length maxRows c]
        exact ih _
    exact hfold (mtChunks records numThreads) []

/-- Any row of the sequentially scheduled run comes from some worker
run on some chunk of the static partition. -/
theorem mtRunSeq_mem (fetch : FetchU) (records : List URec)
    (maxRows numThreads : Nat) (p : PRow)
    (hp : p ∈ mtRunSeq fetch records maxRows numThreads) :
    ∃ chunk ∈ mtChunks records numThreads, ∃ sharedLen,
      p ∈ mtWorkerGo fetch sharedLen maxRows chunk := by
  unfold mtRunSeq at hp
  by_cases hz : records.length = 0
  · rw [if_pos hz] at hp
    simp at hp
  · rw [if_neg hz] at hp
    have hfold : ∀ (chunks : List (List URec)) (init : List PRow),
        p ∈ chunks.foldl (fun shared chunk =>
          shared ++ mtWorkerGo fetch shared.length maxRows chunk) init →
        p ∈ init ∨ ∃ chunk ∈ chunks, ∃ sharedLen,
          p ∈ mtWorkerGo fetch sharedLen maxRows chunk := by
      intro chunks
      induction chunks with
      | nil =>
        intro init h
        exact Or.inl h
      | cons c cs ih =>
        intro init h
        simp only [List.foldl_cons] at h
        rcases ih _ h with hin | ⟨chunk, hchunk, s, hmem⟩
        · rcases List.mem_append.mp hin with hl | hr
          · exact Or.inl hl
          · exact Or.inr ⟨c, List.mem_cons_self c cs, init.length, hr⟩
        · exact Or.inr ⟨chunk, List.mem_cons_of_mem c hchunk, s, hmem⟩
    rcases hfold (mtChunks records numThreads) [] hp with hin | hfound
    · simp at hin
    · exact hfound

/-- C10: a record whose Award ID or Project URL is empty is skipped by
the worker before any fetch (first conjunct: the run's output cannot
depend on the oracle's value at non-skipped rows only — skipped rows
are never fetched), emits no enrichment entry for its Award ID (second
conjunct, under the data model's unique-`Award ID` identity, stated as:
every record sharing the key is also skip-flagged), and still appears
in the merged output — one output per input — carrying the default
zero/empty enrichment values (third and fourth conjuncts). -/
theorem c10_skip_empty_items (fetch : FetchU) (records : List URec)
    (maxRows numThreads : Nat) (rec : URec)
    (hT : 1 ≤ numThreads) (hmem : rec ∈ records)
    (hempty : rec.awardId = "" ∨ rec.url = "")
    (hkey : ∀ r ∈ records, r.awardId = rec.awardId →
      r.awardId = "" ∨ r.url = "") :
    (∀ fetch2 : FetchU,
        (∀ r : URec, ¬(r.awardId = "" ∨ r.url = "") → fetch2 r = fetch r) →
        mtRunSeq fetch2 records maxRows numThreads
          = mtRunSeq fetch records maxRows numThreads)
  ∧ pyDictGet (mtRunSeq fetch records maxRows numThreads) rec.awardId = none
  ∧ (mergeUPF records (mtRunSeq fetch records maxRows numThreads)).length
      = records.length
  ∧ defaultEnrich rec
      ∈ mergeUPF records (mtRunSeq fetch records maxRows numThreads) := by
  have hnone :
      pyDictGet (mtRunSeq fetch records maxRows numThreads) rec.awardId
        = none := by
    rw [pyDictGet_eq_none]
    intro p hp
    obtain ⟨chunk, hchunk, sharedLen, hmemw⟩ :=
      mtRunSeq_mem fetch records maxRows numThreads p hp
    obtain ⟨r, hr, heq, hskip, _, _, _, _⟩ :=
      mtWorkerGo_mem fetch sharedLen maxRows chunk p hmemw
    have hrrec : r ∈ records := by
      have := List.mem_flatten_of_mem hchunk hr
      rwa [mtChunks_flatten records numThreads hT] at this
    intro hcontra
    exact hskip (hkey r hrrec (heq ▸ hcontra))
  refine ⟨fun fetch2 hagree =>
      mtRunSeq_congr fetch fetch2 hagree records maxRows numThreads,
    hnone, by simp [mergeUPF], ?_⟩
  have h1 : enrichOne (mtRunSeq fetch records maxRows numThreads) rec
      = defaultEnrich rec := by
    unfold enrichOne defaultEnrich
    rw [hnone]
  rw [← h1]
  exact List.mem_map.mpr ⟨rec, hmem, rfl⟩

/-- A record with an empty Award ID. -/
def urecEmpty : URec := ⟨"", "No id", "Stream", "https://x/none"⟩

/-- Witness for C10 at a concrete record with an empty Award ID. -/
theorem c10_skip_witness :
    urecEmpty ∈ [urecEmpty, urec1]
  ∧ pyDictGet (mtRunSeq fetchOne [urecEmpty, urec1] 5 1)
      urecEmpty.awardId = none
  ∧ defaultEnrich urecEmpty
      ∈ mergeUPF [urecEmpty, urec1] (mtRunSeq fetchOne [urecEmpty, urec1] 5 1) :=
  ⟨by decide,
   (c10_skip_empty_items fetchOne [urecEmpty, urec1] 5 1 urecEmpty
     (by decide) (by decide) (Or.inl rfl) (by decide)).2.1,
   (c10_skip_empty_items fetchOne [urecEmpty, urec1] 5 1 urecEmpty
     (by decide) (by decide) (Or.inl rfl) (by decide)).2.2.2⟩

/-! ### Claim C1 — checkpoint discipline of the ingestion loop -/

/-- Attempt events contribute no saved offsets. -/
theorem savedOffsets_attempts (recs : List RagRec) (rest : List REvent) :
    savedOffsets ((recs.map fun r => REvent.attempt r.projectId) ++ rest)
      = savedOffsets rest := by
  unfold savedOffsets
  rw [List.filterMap_append, List.filterMap_map]
  simp

/-- C1: in the stage-1 ingestion loop, for every API oracle, fuel bound
and starting cursor, (a) the run's event trace is exactly, batch by
batch, all of the batch's per-record attempts followed by a single save
of the offset advanced by that batch's length — the cursor is saved
exactly once per completed batch and never between the items of a
batch; (b) the starting cursor followed by the successive saved offsets
is strictly increasing, so the persisted checkpoint is monotonically
non-decreasing across the run; (c) there is exactly one save per
fetched batch. -/
theorem c1_checkpoint_batch_trace (fuel : Nat)
    (stream : Int → List RagRec) (start : Int) :
    runMain fuel stream start
      = traceOf start (collectBatches fuel stream start)
  ∧ List.Chain' (· < ·)
      (start :: savedOffsets (runMain fuel stream start))
  ∧ (savedOffsets (runMain fuel stream start)).length
      = (collectBatches fuel stream start).length := by
  induction fuel generalizing start with
  | zero =>
    refine ⟨rfl, ?_, rfl⟩
    simp [runMain, savedOffsets]
  | succ fuel ih =>
    rw [runMain, collectBatches]
    by_cases hz : (stream start).isEmpty
    · rw [if_pos hz, if_pos hz]
      refine ⟨rfl, ?_, rfl⟩
      simp [savedOffsets]
    · rw [if_neg hz, if_neg hz]
      have hlen : 0 < (stream start).length := by
        cases h : stream start with
        | nil => rw [h] at hz; simp at hz
        | cons a rest => simp [h]
      obtain ⟨htrace, hchain, hcount⟩ := ih (start + (stream start).length)
      have hsaved : savedOffsets
          (((stream start).map fun r => REvent.attempt r.projectId)
            ++ [REvent.saveCur (start + (stream start).length)]
            ++ runMain fuel stream (start + (stream start).length))
          = (start + (stream start).length)
            :: savedOffsets (runMain fuel stream (start + (stream start).length)) := by
        rw [List.append_assoc, savedOffsets_attempts]
        unfold savedOffsets
        rw [List.singleton_append, List.filterMap_cons]
      refine ⟨?_, ?_, ?_⟩
      · rw [traceOf, htrace]
      · rw [hsaved, List.chain'_cons]
        constructor
        · omega
        · exact hchain
      · rw [hsaved]
        simp only [List.length_cons, hcount]
